import Mathlib

/-!
Verification of the intent-detection, tool-execution and command-safety engine
of the `tala` assistant.  Go strings are modelled as `String` (with the
underlying `List Char` used for all character-level work, approximating Go's
byte indexing, which coincides on the ASCII data handled here).  `float64`
confidence scores and second-valued timeouts are modelled as `ℚ`.  External
effects (spawning a process, running a registered tool against the file
system) are modelled as explicit oracle parameters, so each embedded function
is a pure function of its inputs and the oracle outcome.
-/

namespace Tala

/-! ### Character and string primitives (Go `strings` package operations) -/

/-- The characters Go's `unicode.IsSpace` accepts within ASCII plus NEL/NBSP,
the set `strings.TrimSpace` and `strings.Fields` split on. -/
def isSpaceChar (c : Char) : Bool :=
  c == ' ' || c == '\t' || c == '\n' || c == '\x0b' || c == '\x0c' || c == '\r' ||
  c == '\x85' || c == '\xa0'

/-- Go `strings.TrimSpace` on the character list of a string. -/
def trimSpace (l : List Char) : List Char :=
  ((l.dropWhile isSpaceChar).reverse.dropWhile isSpaceChar).reverse

/-- Go `strings.ToLower` (ASCII case folding, the only case appearing here). -/
def toLowerL (l : List Char) : List Char :=
  l.map Char.toLower

/-- `prefixB pre l` is true when `pre` is a leading segment of `l`
(Go `strings.HasPrefix l pre`). -/
def prefixB : List Char → List Char → Bool
  | [], _ => true
  | _ :: _, [] => false
  | a :: as, b :: bs => a == b && prefixB as bs

/-- `infixB needle hay` is true when `needle` occurs contiguously inside `hay`
(Go `strings.Contains hay needle`). -/
def infixB (needle : List Char) : List Char → Bool
  | [] => prefixB needle []
  | b :: bs => prefixB needle (b :: bs) || infixB needle bs

/-- `suffixB suf l` is true when `suf` is a trailing segment of `l`
(Go `strings.HasSuffix l suf`). -/
def suffixB (suf l : List Char) : Bool :=
  prefixB suf.reverse l.reverse

/-- Go `strings.Fields`: split on runs of whitespace, yielding the non-empty
words.  `cur` accumulates the current word in reverse. -/
def fieldsAux (cur : List Char) : List Char → List (List Char)
  | [] => if cur.isEmpty then [] else [cur.reverse]
  | c :: rest =>
    if isSpaceChar c then
      if cur.isEmpty then fieldsAux [] rest else cur.reverse :: fieldsAux [] rest
    else fieldsAux (c :: cur) rest

def fields (l : List Char) : List (List Char) :=
  fieldsAux [] l

/-- Go `strings.Index hay needle`: position of the first occurrence. -/
def idxOfSub (needle : List Char) : List Char → Option Nat
  | [] => if prefixB needle [] then some 0 else none
  | b :: bs =>
    if prefixB needle (b :: bs) then some 0
    else (idxOfSub needle bs).map (· + 1)

/-- Go `strings.Index hay (string c)` for one character. -/
def idxOfChar (c : Char) : List Char → Option Nat
  | [] => none
  | b :: bs => if b == c then some 0 else (idxOfChar c bs).map (· + 1)

/-- Go `strings.LastIndex hay (string c)` for one character. -/
def lastIdxOfChar (c : Char) (l : List Char) : Option Nat :=
  match idxOfChar c l.reverse with
  | some i => some (l.length - 1 - i)
  | none => none

/-- Go `strings.IndexAny hay cutset`: first position of any cutset member. -/
def idxOfAny (cutset : List Char) : List Char → Option Nat
  | [] => none
  | b :: bs => if cutset.contains b then some 0 else (idxOfAny cutset bs).map (· + 1)

/-- Go `strings.Trim l cutset`: strip cutset characters from both ends. -/
def trimCutset (cutset : List Char) (l : List Char) : List Char :=
  ((l.dropWhile (cutset.contains ·)).reverse.dropWhile (cutset.contains ·)).reverse

/-- Go `strings.TrimSuffix l suf`: remove one trailing copy of `suf` if present. -/
def trimSuffixL (suf l : List Char) : List Char :=
  if suffixB suf l then l.take (l.length - suf.length) else l

/-- Double-quote and single-quote characters, written by code point to keep
the development free of quote characters inside literals. -/
def dquote : Char := Char.ofNat 34

def squote : Char := Char.ofNat 39

def lbrace : Char := Char.ofNat 123

def rbrace : Char := Char.ofNat 125

def lbrack : Char := '['

def rbrack : Char := ']'

/-- The cutset `"\x22\x27"` used by `strings.Trim(word, "\x22\x27")` in the
intent detector. -/
def quoteCutset : List Char := [dquote, squote]

/-! ### Command Safety Policy (`isCommandSafe`, internal/ai/tools.go:548-677) -/

/-- The deny-pattern set of `isCommandSafe` (internal/ai/tools.go:558-603),
in source order.  The fork-bomb entry spells its braces by code point. -/
def dangerousPatterns : List String :=
  ["rm -rf",
   "rm -r /",
   "mkfs",
   "dd if=",
   ":()\x7b :|:& \x7d;:",
   "curl", "wget",
   "sudo",
   "su ",
   "passwd",
   "useradd",
   "userdel",
   "chmod 777",
   "chown root",
   "systemctl",
   "service",
   "reboot",
   "shutdown",
   "halt",
   "poweroff",
   "mount",
   "umount",
   "fdisk",
   "parted",
   "format",
   "> /dev/",
   "nc ", "netcat",
   "ssh",
   "scp",
   "rsync",
   "crontab",
   "at ",
   "killall",
   "pkill",
   "kill -9",
   "python -c",
   "perl -e",
   "ruby -e",
   "node -e",
   "eval",
   "exec",
   "/bin/bash",
   "/bin/sh",
   "bash -c",
   "sh -c"]

/-- The metacharacter deny set of `isCommandSafe` (internal/ai/tools.go:613-626). -/
def dangerousChars : List String :=
  [";",
   "&&",
   "||",
   "|",
   ">",
   ">>",
   "<",
   "`",
   "$(",
   "$()",
   "../",
   "./"]

/-- The allow-list of `isCommandSafe` (internal/ai/tools.go:635-649). -/
def safeCommands : List String :=
  ["ls", "dir", "pwd", "cd", "echo", "cat", "head", "tail",
   "grep", "find", "which", "where", "type", "file",
   "date", "whoami", "id", "uptime", "uname", "hostname",
   "ps", "top", "df", "du", "free", "lscpu", "lsblk",
   "env", "printenv", "history", "alias",
   "wc", "sort", "uniq", "cut", "awk", "sed",
   "git status", "git log", "git branch", "git diff",
   "go version", "go list", "go mod",
   "npm list", "npm version",
   "python --version", "python3 --version",
   "node --version", "php --version",
   "java -version", "javac -version",
   "gcc --version", "clang --version"]

/-- First line of `isCommandSafe`:
`command = strings.ToLower(strings.TrimSpace(command))`. -/
def normalize (command : String) : List Char :=
  toLowerL (trimSpace command.data)

/-- `isCommandSafe` (internal/ai/tools.go:548-677): deny empty input, any
deny-pattern occurrence and any flagged metacharacter; otherwise accept when
some allow-list entry starts with the first whitespace token
(`strings.HasPrefix(safe, baseCommand)`), or when the text mentions a
version or help flag; deny everything else. -/
def isCommandSafe (command : String) : Bool :=
  let cmd := normalize command
  if cmd.isEmpty then false
  else if dangerousPatterns.any (fun p => infixB p.data cmd) then false
  else if dangerousChars.any (fun c => infixB c.data cmd) then false
  else
    match fields cmd with
    | [] => false
    | baseCommand :: _ =>
      if safeCommands.any (fun safe => prefixB baseCommand safe.data) then true
      else if infixB "--version".data cmd || infixB "-version".data cmd then true
      else if infixB "--help".data cmd || infixB "-h".data cmd then true
      else false

/-! ### Command Sandbox Runner (`ExecuteShellCommand`, internal/ai/tools.go:494-546) -/

/-- Outcome of the spawned child process, abstracting the
`cmd.CombinedOutput` goroutine and the timeout `select`: the watchdog fires,
or the execution returns an error (non-zero exit or launch failure) together
with the captured combined output, or it completes normally with the output. -/
inductive RunOutcome where
  | timedOut : RunOutcome
  | failed (errMsg : String) (output : String) : RunOutcome
  | completed (output : String) : RunOutcome
deriving DecidableEq

/-- A process runner: what the operating system does for a given command and
timeout (in seconds).  `ExecuteShellCommand` consults it exactly when it
spawns a child process. -/
abbrev Runner := String → ℚ → RunOutcome

/-- Timeout clamping of `ExecuteShellCommand` (internal/ai/tools.go:511-513):
`if timeout <= 0 || timeout > 30*time.Second { timeout = 30 * time.Second }`. -/
def clampTimeout (timeout : ℚ) : ℚ :=
  if timeout ≤ 0 ∨ 30 < timeout then 30 else timeout

/-- Output cap of `ExecuteShellCommand` (internal/ai/tools.go:541). -/
def truncLimit : Nat := 10000

/-- Rendering of a `time.Duration` for the timeout message (`%v`). -/
def durationRepr (t : ℚ) : String :=
  toString t.num ++ (if t.den == 1 then "" else "/" ++ toString t.den) ++ "s"

/-- Result of `ExecuteShellCommand`: the returned text, plus whether a child
process was spawned on the way (true exactly when the runner was consulted). -/
structure ShellResult where
  output : String
  spawned : Bool
deriving DecidableEq

/-- `ExecuteShellCommand` (internal/ai/tools.go:494-546): reject unsafe
commands without spawning; otherwise clamp the timeout, run the command and
return a timeout message, a failure message embedding the captured output, or
the captured output truncated to `truncLimit` characters with a trailing
marker.  Only the normal-completion path truncates, as in the source. -/
def ExecuteShellCommand (runner : Runner) (command : String) (timeout : ℚ) :
    ShellResult :=
  if !isCommandSafe command then
    ⟨"Error: Command blocked for security reasons", false⟩
  else
    let t := clampTimeout timeout
    match runner command t with
    | .timedOut => ⟨"Command timed out after " ++ durationRepr t, true⟩
    | .failed e out => ⟨"Command failed: " ++ e ++ "\nOutput: " ++ out, true⟩
    | .completed out =>
      if truncLimit < out.length then
        ⟨⟨out.data.take truncLimit⟩ ++ "\n... (output truncated)", true⟩
      else ⟨out, true⟩

/-! ### Tool Registry & Executor (internal/ai/tools.go) -/

/-- A loosely-typed tool parameter value (`interface\x7b\x7d` in Go): the
string and number cases are the ones the engine produces and consumes. -/
inductive PValue where
  | str (s : String) : PValue
  | num (q : ℚ) : PValue
deriving DecidableEq

/-- A parameter map `map[string]interface\x7b\x7d`, as an association list. -/
abbrev Params := List (String × PValue)

/-- `args[k].(string)`: the string value at `k`, when present and a string. -/
def Params.getStr (args : Params) (k : String) : Option String :=
  match args.lookup k with
  | some (.str s) => some s
  | _ => none

/-- `args[k].(float64)`: the numeric value at `k`, when present and numeric. -/
def Params.getNum (args : Params) (k : String) : Option ℚ :=
  match args.lookup k with
  | some (.num q) => some q
  | _ => none

/-- `ToolResult` (internal/ai/tools.go:27-31). -/
structure ToolResult where
  Name : String
  Content : String
  Success : Bool
deriving DecidableEq

/-- The names of the registered tools, in the order `GetAvailableTools`
(internal/ai/tools.go:34-419) lists them. -/
def toolNames : List String :=
  ["list_files", "read_file", "create_file", "update_file", "delete_file",
   "create_directory", "delete_directory", "copy_file", "move_file",
   "get_working_directory", "change_directory", "execute_command",
   "list_processes", "get_system_info"]

/-- A tool oracle: the textual result each registered tool's `Execute`
closure produces for given arguments (the closures act on the file system or
the sandbox runner; the oracle abstracts those effects). -/
abbrev ToolOracle := String → Params → String

/-- `Execute` of the `execute_command` tool (internal/ai/tools.go:304-318):
require the `command` string, read an optional positive numeric `timeout`
defaulting to 30 seconds, and delegate to `ExecuteShellCommand`. -/
def executeCommandTool (runner : Runner) (args : Params) : String :=
  match args.getStr "command" with
  | none => "Error: command is required"
  | some command =>
    let timeout : ℚ :=
      match args.getNum "timeout" with
      | some t => if 0 < t then t else 30
      | none => 30
    (ExecuteShellCommand runner command timeout).output

/-- `ExecuteTool` (internal/ai/tools.go:421-446): look the name up in the
registry; on a match run the tool and infer `Success` by checking that the
content does not start with `Error` or `Failed`; otherwise return a failed
`Unknown tool` result. -/
def ExecuteTool (oracle : ToolOracle) (toolName : String) (args : Params) :
    ToolResult :=
  if toolNames.contains toolName then
    let content := oracle toolName args
    ⟨toolName, content,
      !prefixB "Error".data content.data && !prefixB "Failed".data content.data⟩
  else
    ⟨toolName, "Unknown tool: " ++ toolName, false⟩

/-! ### Intent Detector (internal/ai intent detection) -/

/-- `Intent` (the detector's output record): action label, tool name,
parameter map and confidence score. -/
structure Intent where
  Action : String
  Tool : String
  Parameters : Params
  Confidence : ℚ
deriving DecidableEq

/-- The marker words of `extractCommand`, in source order. -/
def commandMarkers : List String :=
  ["run ", "execute ", "command ", "bash ", "shell "]

/-- The sentence terminators `extractCommand` stops at (`.!?\n`). -/
def sentenceEnds : List Char := ['.', '!', '?', '\n']

/-- `extractCommand` on character lists: find the first marker word, take the
remainder up to the next sentence terminator (or to the end), and trim
whitespace; empty when no marker occurs. -/
def extractCommandAux : List String → List Char → List Char
  | [], _ => []
  | p :: ps, text =>
    match idxOfSub p.data text with
    | some idx =>
      let remainder := text.drop (idx + p.data.length)
      match idxOfAny sentenceEnds remainder with
      | some e => trimSpace (remainder.take e)
      | none => trimSpace remainder
    | none => extractCommandAux ps text

/-- `extractCommand` (the detector's command extraction). -/
def extractCommand (text : String) : String :=
  ⟨extractCommandAux commandMarkers text.data⟩

/-- First word containing a dot, quote-trimmed: the primary filename rule of
`extractFileParams`. -/
def findDotWord : List (List Char) → Option (List Char)
  | [] => none
  | w :: ws =>
    if w.contains '.' then some (trimCutset quoteCutset w) else findDotWord ws

/-- The secondary filename rule of `extractFileParams`: the word following
`file called` or `file named`. -/
def findCalledNamed : List (List Char) → Option (List Char)
  | a :: b :: c :: rest =>
    if a == "file".data && (b == "called".data || b == "named".data) then some c
    else findCalledNamed (b :: c :: rest)
  | _ => none

/-- Append `.txt` when the (quote-trimmed) filename has no dot. -/
def dotTxtIfNeeded (w : List Char) : List Char :=
  if w.contains '.' then w else w ++ ".txt".data

/-- The content transformation of `extractFileParams`: join the words after
the marker, strip a trailing ` in it` then ` to it`, and trim quotes. -/
def processContent (ws : List (List Char)) : List Char :=
  trimCutset quoteCutset
    (trimSuffixL " to it".data (trimSuffixL " in it".data (List.intercalate [' '] ws)))

/-- The content-marker scan of `extractFileParams`: the words after the first
`with` or `containing` that is not the final word. -/
def contentAfter : List (List Char) → Option (List Char)
  | [] => none
  | w :: rest =>
    if w == "with".data || w == "containing".data then
      match rest with
      | [] => none
      | _ :: _ => some (processContent rest)
    else contentAfter rest

/-- `extractFileParams` (internal/ai/provider.go:730-789 of the combined
intent file): filename from the first dotted token, else from
`file called`/`file named` with a `.txt` default extension; content from the
words after `with`/`containing`, defaulting to `Hello World!`. -/
def extractFileParams (userInput : String) : Params :=
  let words := fields userInput.data
  let fn : Option (List Char) :=
    match findDotWord words with
    | some w => some w
    | none => (findCalledNamed words).map
        (fun w => dotTxtIfNeeded (trimCutset quoteCutset w))
  let content : List Char :=
    match contentAfter words with
    | some c => if c.isEmpty then "Hello World!".data else c
    | none => "Hello World!".data
  (match fn with
   | some f => [("filename", PValue.str ⟨f⟩)]
   | none => []) ++ [("content", PValue.str ⟨content⟩)]

/-- `extractDirParams`: the quote-trimmed word following
`directory`, `folder`, `called` or `named`. -/
def findDirWord : List (List Char) → Option (List Char)
  | a :: b :: rest =>
    if a == "directory".data || a == "folder".data ||
       a == "called".data || a == "named".data then
      some (trimCutset quoteCutset b)
    else findDirWord (b :: rest)
  | _ => none

def extractDirParams (userInput : String) : Params :=
  match findDirWord (fields userInput.data) with
  | some d => [("dirname", PValue.str ⟨d⟩)]
  | none => []

/-- `fallbackPatternMatching` (the deterministic keyword heuristics of the
detector): fixed trigger-phrase combinations over the lower-cased input, each
match producing one intent with its fixed heuristic confidence. -/
def fallbackPatternMatching (userInput : String) : List Intent :=
  let input := toLowerL userInput.data
  let has := fun (s : String) => infixB s.data input
  let l1 : List Intent :=
    if (has "create" || has "make") && has "file" then
      [⟨"create file", "create_file", extractFileParams userInput, mkRat 7 10⟩]
    else []
  let l2 : List Intent :=
    if (has "create" || has "make") && (has "directory" || has "folder") then
      [⟨"create directory", "create_directory", extractDirParams userInput, mkRat 7 10⟩]
    else []
  let l3 : List Intent :=
    if (has "list" || has "show") && (has "file" || has "directory") then
      [⟨"list files", "list_files", [], mkRat 8 10⟩]
    else []
  let l4 : List Intent :=
    if has "run" || has "execute" || has "command" || has "bash" then
      let command := extractCommandAux commandMarkers input
      if command.isEmpty then []
      else [⟨"execute command", "execute_command",
             [("command", PValue.str ⟨command⟩)], mkRat 8 10⟩]
    else []
  let l5 : List Intent :=
    if has "working directory" || has "current directory" || has "where am i" then
      [⟨"get working directory", "get_working_directory", [], mkRat 9 10⟩]
    else []
  let l6 : List Intent :=
    if has "system" && has "info" then
      [⟨"get system info", "get_system_info", [], mkRat 9 10⟩]
    else []
  let l7 : List Intent :=
    if has "process" || has "task" then
      [⟨"list processes", "list_processes", [], mkRat 8 10⟩]
    else []
  l1 ++ l2 ++ l3 ++ l4 ++ l5 ++ l6 ++ l7

/-! ### A model of `encoding/json` unmarshalling into `[]Intent`

`parseIntentResponse` hands the bracket-delimited span to the Go standard
library's `json.Unmarshal`, which is not part of this repository; the
following executable parser models it on the fragment the engine exchanges:
arrays of flat intent objects, double-quoted strings without escape
sequences, and decimal numbers without exponents.  Field keys are matched
exactly, unknown keys are ignored, missing keys give Go zero values, and a
type mismatch, malformed input or trailing data is an error, as in
`encoding/json`. -/

def jsonWsChars : List Char := [' ', '\t', '\n', '\r']

def skipWs (l : List Char) : List Char :=
  l.dropWhile (jsonWsChars.contains ·)

/-- A JSON string body after the opening quote: the content and the rest
after the closing quote.  Escape sequences are outside the modelled fragment
and fail. -/
def parseJString : List Char → Option (List Char × List Char)
  | [] => none
  | c :: rest =>
    if c == dquote then some ([], rest)
    else if c == '\\' then none
    else (parseJString rest).map (fun sr => (c :: sr.1, sr.2))

def isDigit (c : Char) : Bool := '0' ≤ c && c ≤ '9'

def digitsToNat (l : List Char) : Nat :=
  l.foldl (fun acc c => acc * 10 + (c.toNat - 48)) 0

/-- A JSON number (optional sign, digits, optional fractional part), built
with `mkRat` as `(intpart * 10 ^ k + fracpart) / 10 ^ k`. -/
def parseNumber (l : List Char) : Option (ℚ × List Char) :=
  let signed : Bool × List Char :=
    match l with
    | c :: rest => if c == '-' then (true, rest) else (false, l)
    | [] => (false, [])
  let ds := signed.2.takeWhile isDigit
  let r1 := signed.2.dropWhile isDigit
  if ds.isEmpty then none
  else
    let finish := fun (n : Nat) (den : Nat) (r : List Char) =>
      some ((mkRat (if signed.1 then -(n : Int) else (n : Int)) den : ℚ), r)
    match r1 with
    | c :: rest =>
      if c == '.' then
        let fs := rest.takeWhile isDigit
        let r2 := rest.dropWhile isDigit
        if fs.isEmpty then none
        else finish (digitsToNat ds * 10 ^ fs.length + digitsToNat fs) (10 ^ fs.length) r2
      else finish (digitsToNat ds) 1 r1
    | [] => finish (digitsToNat ds) 1 []

/-- A scalar JSON value: a string or a number. -/
def parseScalar (l : List Char) : Option (PValue × List Char) :=
  match l with
  | [] => none
  | c :: rest =>
    if c == dquote then (parseJString rest).map (fun sr => (PValue.str ⟨sr.1⟩, sr.2))
    else (parseNumber l).map (fun qr => (PValue.num qr.1, qr.2))

/-- The fields of a parameters object, positioned at a key; fuelled. -/
def parseParamsFields : Nat → List Char → Option (Params × List Char)
  | 0, _ => none
  | _ + 1, [] => none
  | fuel + 1, c :: rest =>
    if c == dquote then
      match parseJString rest with
      | none => none
      | some (key, r1) =>
        match skipWs r1 with
        | c1 :: r2 =>
          if c1 == ':' then
            match parseScalar (skipWs r2) with
            | none => none
            | some (v, r3) =>
              match skipWs r3 with
              | c2 :: r4 =>
                if c2 == ',' then
                  (parseParamsFields fuel (skipWs r4)).map
                    (fun pr => ((⟨key⟩, v) :: pr.1, pr.2))
                else if c2 == rbrace then some ([(⟨key⟩, v)], r4)
                else none
              | [] => none
          else none
        | [] => none
    else none

/-- A parameters object, positioned at its opening brace. -/
def parseParamsObj (fuel : Nat) (l : List Char) : Option (Params × List Char) :=
  match l with
  | [] => none
  | c :: rest =>
    if c == lbrace then
      match skipWs rest with
      | [] => none
      | c1 :: r1 =>
        if c1 == rbrace then some ([], r1)
        else parseParamsFields fuel (c1 :: r1)
    else none

/-- A decoded intent-object field: a scalar or the parameters object. -/
inductive JField where
  | scalar (v : PValue) : JField
  | obj (ps : Params) : JField

/-- The fields of an intent object, positioned at a key; fuelled. -/
def parseIntentFields : Nat → List Char → Option (List (String × JField) × List Char)
  | 0, _ => none
  | _ + 1, [] => none
  | fuel + 1, c :: rest =>
    if c == dquote then
      match parseJString rest with
      | none => none
      | some (key, r1) =>
        match skipWs r1 with
        | c1 :: r2 =>
          if c1 == ':' then
            let valueRest : Option (JField × List Char) :=
              match skipWs r2 with
              | [] => none
              | v :: vr =>
                if v == lbrace then
                  (parseParamsObj fuel (v :: vr)).map (fun pr => (.obj pr.1, pr.2))
                else
                  (parseScalar (v :: vr)).map (fun sr => (.scalar sr.1, sr.2))
            match valueRest with
            | none => none
            | some (f, r3) =>
              match skipWs r3 with
              | c2 :: r4 =>
                if c2 == ',' then
                  (parseIntentFields fuel (skipWs r4)).map
                    (fun pr => ((⟨key⟩, f) :: pr.1, pr.2))
                else if c2 == rbrace then some ([(⟨key⟩, f)], r4)
                else none
              | [] => none
          else none
        | [] => none
    else none

/-- Decode a string-typed field; absent fields give Go's zero value, a
mismatched type is an unmarshalling error. -/
def fieldStr (fs : List (String × JField)) (k : String) : Option String :=
  match fs.lookup k with
  | none => some ""
  | some (.scalar (.str s)) => some s
  | some _ => none

def fieldNum (fs : List (String × JField)) (k : String) : Option ℚ :=
  match fs.lookup k with
  | none => some 0
  | some (.scalar (.num q)) => some q
  | some _ => none

def fieldObj (fs : List (String × JField)) (k : String) : Option Params :=
  match fs.lookup k with
  | none => some []
  | some (.obj ps) => some ps
  | some _ => none

/-- Build an `Intent` from decoded object fields. -/
def buildIntent (fs : List (String × JField)) : Option Intent :=
  match fieldStr fs "action", fieldStr fs "tool",
        fieldObj fs "parameters", fieldNum fs "confidence" with
  | some a, some t, some p, some c => some ⟨a, t, p, c⟩
  | _, _, _, _ => none

/-- An intent object, positioned at its opening brace. -/
def parseIntentObject (fuel : Nat) (l : List Char) : Option (Intent × List Char) :=
  match l with
  | [] => none
  | c :: rest =>
    if c == lbrace then
      match skipWs rest with
      | [] => none
      | c1 :: r1 =>
        if c1 == rbrace then (buildIntent []).map (fun i => (i, r1))
        else
          match parseIntentFields fuel (c1 :: r1) with
          | none => none
          | some (fs, r2) => (buildIntent fs).map (fun i => (i, r2))
    else none

/-- The elements of a non-empty intent array, positioned at an element. -/
def parseIntentElems : Nat → List Char → Option (List Intent × List Char)
  | 0, _ => none
  | fuel + 1, l =>
    match parseIntentObject fuel l with
    | none => none
    | some (i, r1) =>
      match skipWs r1 with
      | c :: r2 =>
        if c == ',' then
          (parseIntentElems fuel (skipWs r2)).map (fun pr => (i :: pr.1, pr.2))
        else if c == rbrack then some ([i], r2)
        else none
      | [] => none

/-- The model of `json.Unmarshal(jsonStr, &intents)` for `[]Intent`:
a (possibly empty) array with nothing but whitespace around it. -/
def jsonUnmarshalIntents (l : List Char) : Option (List Intent) :=
  match skipWs l with
  | [] => none
  | c :: rest =>
    if c == lbrack then
      let parsed : Option (List Intent × List Char) :=
        match skipWs rest with
        | [] => none
        | c1 :: r1 =>
          if c1 == rbrack then some ([], r1)
          else parseIntentElems (l.length + 1) (c1 :: r1)
      match parsed with
      | none => none
      | some (is, r) => if (skipWs r).isEmpty then some is else none
    else none

/-! ### Response parsing and the detection pipeline -/

/-- `tool.Name` with underscores replaced by spaces
(`strings.ReplaceAll(tool.Name, "_", " ")`). -/
def underscoresToSpaces (s : String) : String :=
  ⟨s.data.map (fun c => if c == '_' then ' ' else c)⟩

/-- `extractIntentsFromText`: scan the lower-cased reply for each registered
tool name (or its space-separated form); each match becomes a low-confidence
intent, and a matched `execute_command` with an extractable command gets the
command parameter and a raised confidence. -/
def extractIntentsFromText (text0 : String) : List Intent :=
  let text := toLowerL text0.data
  toolNames.filterMap (fun name =>
    if infixB name.data text || infixB (underscoresToSpaces name).data text then
      some (if name == "execute_command" then
              let command := extractCommandAux commandMarkers text
              if command.isEmpty then ⟨"detected from text", name, [], mkRat 6 10⟩
              else ⟨"detected from text", name,
                    [("command", PValue.str ⟨command⟩)], mkRat 8 10⟩
            else ⟨"detected from text", name, [], mkRat 6 10⟩)
    else none)

/-- `parseIntentResponse`: take the span from the first `[` to the last `]`
of the reply, unmarshal it as an intent array, and on unmarshalling failure
fall back to the text scan over the whole reply. -/
def parseIntentResponse (response : String) : List Intent :=
  match idxOfChar lbrack response.data, lastIdxOfChar rbrack response.data with
  | some jsonStart, some jsonEnd =>
    if jsonEnd ≤ jsonStart then []
    else
      match jsonUnmarshalIntents ((response.data.take (jsonEnd + 1)).drop jsonStart) with
      | some intents => intents
      | none => extractIntentsFromText response
  | _, _ => []

/-- `DetectIntent`: the provider's reply to the detection prompt is abstracted
as `modelReply` (`.error` is a failed model call).  On failure fall back to
the keyword heuristics; otherwise parse the reply and fall back when nothing
was detected.  The Go error component of the return is the `Except` layer. -/
def DetectIntent (modelReply : Except String String) (userInput : String) :
    Except String (List Intent) :=
  match modelReply with
  | .error _ => .ok (fallbackPatternMatching userInput)
  | .ok response =>
    if (parseIntentResponse response).length = 0 then
      .ok (fallbackPatternMatching userInput)
    else .ok (parseIntentResponse response)

/-! ### Provider Orchestrator -/

/-- `OpenAIProvider` configuration (internal/ai/provider.go:29-34). -/
structure OpenAIProvider where
  APIKey : String
  Model : String
  Temperature : ℚ
  MaxTokens : Int

/-- `AnthropicProvider` configuration (internal/ai/provider.go:122-127). -/
structure AnthropicProvider where
  APIKey : String
  Model : String
  Temperature : ℚ
  MaxTokens : Int

/-- `OpenAIProvider.GenerateResponse` (internal/ai/provider.go:45-47): a
deterministic stub echoing the prompt, with a nil error. -/
def OpenAIProvider.GenerateResponse (_p : OpenAIProvider) (prompt : String) :
    String × Option String :=
  ("OpenAI response to: " ++ prompt, none)

/-- `AnthropicProvider.GenerateResponse` (internal/ai/provider.go:138-140). -/
def AnthropicProvider.GenerateResponse (_p : AnthropicProvider) (prompt : String) :
    String × Option String :=
  ("Anthropic response to: " ++ prompt, none)

/-- The tool-execution gate of the internal providers
(internal/ai/provider.go:59-65, likewise lines 152-158 and 309-314): run
exactly the detected intents whose confidence exceeds `0.8`, in order. -/
def executeIntentsInternal (oracle : ToolOracle) (intents : List Intent) :
    List ToolResult :=
  (intents.filter (fun i => mkRat 8 10 < i.Confidence)).map
    (fun i => ExecuteTool oracle i.Tool i.Parameters)

/-- The tool-execution gate of the legacy providers (ai/provider.go:55-61,
likewise lines 119-126 and 247-254): the same loop with threshold `0.5`. -/
def executeIntentsLegacy (oracle : ToolOracle) (intents : List Intent) :
    List ToolResult :=
  (intents.filter (fun i => mkRat 5 10 < i.Confidence)).map
    (fun i => ExecuteTool oracle i.Tool i.Parameters)

/-- A stand-in tool oracle whose every execution reports plain success text. -/
def stubOracle : ToolOracle := fun _ _ => "created"

/-- A runner for a process that never runs (used where the policy rejects). -/
def idleRunner : Runner := fun _ _ => .completed ""

/-! ## Helper lemmas -/

lemma fields_nil : fields ([] : List Char) = [] := rfl

lemma denyPatternBlocks (command p : String) (hp : p ∈ dangerousPatterns)
    (hi : infixB p.data (normalize command) = true) :
    isCommandSafe command = false := by
  have hany : dangerousPatterns.any (fun q => infixB q.data (normalize command)) = true :=
    List.any_eq_true.mpr ⟨p, hp, hi⟩
  by_cases hemp : (normalize command).isEmpty
  · simp [isCommandSafe, hemp]
  · simp [isCommandSafe, hemp, hany]

lemma denyCharBlocks (command c : String) (hc : c ∈ dangerousChars)
    (hi : infixB c.data (normalize command) = true) :
    isCommandSafe command = false := by
  have hany : dangerousChars.any (fun q => infixB q.data (normalize command)) = true :=
    List.any_eq_true.mpr ⟨c, hc, hi⟩
  by_cases hemp : (normalize command).isEmpty
  · simp [isCommandSafe, hemp]
  · by_cases hpat : dangerousPatterns.any (fun q => infixB q.data (normalize command))
    · simp [isCommandSafe, hemp, hpat]
    · simp [isCommandSafe, hemp, hpat, hany]

lemma allowlistAccepts (command : String) (base : List Char) (rest : List (List Char))
    (hpat : dangerousPatterns.any (fun p => infixB p.data (normalize command)) = false)
    (hchr : dangerousChars.any (fun c => infixB c.data (normalize command)) = false)
    (hfields : fields (normalize command) = base :: rest)
    (hallow : safeCommands.any (fun safe => prefixB base safe.data) = true) :
    isCommandSafe command = true := by
  have hemp : (normalize command).isEmpty = false := by
    cases hnc : normalize command with
    | nil => rw [hnc, fields_nil] at hfields; cases hfields
    | cons a l => rfl
  simp [isCommandSafe, hemp, hpat, hchr, hfields, hallow]

lemma lowConfidenceNeverExecutesInternal (oracle : ToolOracle) (intents : List Intent) :
    executeIntentsInternal oracle
      (intents.filter (fun i => decide (i.Confidence ≤ mkRat 8 10))) = [] := by
  unfold executeIntentsInternal
  suffices h : (intents.filter (fun i => decide (i.Confidence ≤ mkRat 8 10))).filter
      (fun i => decide (mkRat 8 10 < i.Confidence)) = [] by
    rw [h]; rfl
  induction intents with
  | nil => rfl
  | cons i is ih =>
    by_cases hle : i.Confidence ≤ mkRat 8 10
    · have hnlt : ¬(mkRat 8 10 < i.Confidence) := not_lt.mpr hle
      simp [List.filter_cons, hle, hnlt, ih]
    · simp [List.filter_cons, hle, ih]

lemma idxOfChar_append {c : Char} {l₁ : List Char} (h : c ∉ l₁) (l₂ : List Char) :
    idxOfChar c (l₁ ++ l₂) = (idxOfChar c l₂).map (fun i => l₁.length + i) := by
  induction l₁ with
  | nil => cases hx : idxOfChar c l₂ <;> simp [hx]
  | cons a as ih =>
    simp only [List.mem_cons, not_or] at h
    have hne : (a == c) = false := beq_eq_false_iff_ne.mpr (Ne.symm h.1)
    show (if (a == c) = true then some 0
          else (idxOfChar c (as ++ l₂)).map (· + 1)) =
        (idxOfChar c l₂).map (fun i => (a :: as).length + i)
    rw [hne, ih h.2]
    cases hx : idxOfChar c l₂ with
    | none => rfl
    | some i =>
      simp only [hx, Option.map_some', List.length_cons, Bool.false_eq_true, if_false]
      congr 1
      omega

lemma idxOfChar_cons_self (c : Char) (l : List Char) :
    idxOfChar c (c :: l) = some 0 := by
  simp [idxOfChar]

lemma take_len_append (l₁ l₂ : List Char) (n : Nat) :
    (l₁ ++ l₂).take (l₁.length + n) = l₁ ++ l₂.take n := by
  induction l₁ with
  | nil => simp
  | cons a as ih =>
    have harith : (a :: as).length + n = (as.length + n) + 1 := by
      simp [List.length_cons]; omega
    rw [List.cons_append, harith, List.take_succ_cons, ih, List.cons_append]

lemma drop_len_append (l₁ l₂ : List Char) : (l₁ ++ l₂).drop l₁.length = l₂ := by
  induction l₁ with
  | nil => rfl
  | cons a as ih => simp only [List.cons_append, List.length_cons, List.drop_succ_cons]; exact ih

/-- The span from the first `[` to the last `]`: used to state how
`parseIntentResponse` carves a reply. -/
def bracketSpan (mid : List Char) : List Char :=
  lbrack :: (mid ++ [rbrack])

lemma parse_span (A mid B : List Char) (l : List Intent)
    (hA : lbrack ∉ A) (hB : rbrack ∉ B)
    (hparse : jsonUnmarshalIntents (bracketSpan mid) = some l) :
    parseIntentResponse ⟨A ++ (bracketSpan mid ++ B)⟩ = l := by
  have hstart : idxOfChar lbrack (A ++ (bracketSpan mid ++ B)) = some A.length := by
    rw [idxOfChar_append hA]
    have h0 : idxOfChar lbrack (bracketSpan mid ++ B) = some 0 := by
      show idxOfChar lbrack (lbrack :: ((mid ++ [rbrack]) ++ B)) = some 0
      exact idxOfChar_cons_self _ _
    rw [h0]; rfl
  have hrevshape : (A ++ (bracketSpan mid ++ B)).reverse =
      B.reverse ++ (rbrack :: ((mid.reverse ++ [lbrack]) ++ A.reverse)) := by
    simp [bracketSpan]
  have hBrev : rbrack ∉ B.reverse := by
    simpa using hB
  have hlast : lastIdxOfChar rbrack (A ++ (bracketSpan mid ++ B)) =
      some (A.length + mid.length + 1) := by
    unfold lastIdxOfChar
    rw [hrevshape, idxOfChar_append hBrev, idxOfChar_cons_self]
    have hlen : (A ++ (bracketSpan mid ++ B)).length =
        A.length + (mid.length + 2) + B.length := by
      simp [bracketSpan]; omega
    simp only [Option.map_some']
    rw [hlen]
    congr 1
    simp [List.length_reverse]
    omega
  have hgt : ¬(A.length + mid.length + 1 ≤ A.length) := by omega
  have htakedrop : ((A ++ (bracketSpan mid ++ B)).take (A.length + mid.length + 1 + 1)).drop
      A.length = bracketSpan mid := by
    have harith : A.length + mid.length + 1 + 1 = A.length + (mid.length + 2) := by omega
    have hspanlen : (bracketSpan mid).length = mid.length + 2 := by
      simp [bracketSpan]
    rw [harith, take_len_append]
    have h2 : (bracketSpan mid ++ B).take (mid.length + 2) = bracketSpan mid := by
      rw [← hspanlen]
      have h3 := take_len_append (bracketSpan mid) B 0
      simp only [List.take_zero, List.append_nil] at h3
      exact h3
    rw [h2, drop_len_append]
  unfold parseIntentResponse
  simp only [hstart, hlast, hgt, if_false, htakedrop, hparse]

/-! ## Claim theorems -/

/-- A runner reporting a successful run whose output begins with `Error`
(what `sh -c "echo Error"` produces: exit status 0, output `Error\n`). -/
def echoErrorRunner : Runner := fun _ _ => .completed "Error\n"

/-- The tool oracle matching `echoErrorRunner` for the command tool. -/
def echoErrorOracle : ToolOracle := fun _ args => executeCommandTool echoErrorRunner args

/-- C1: `ExecuteTool` does not keep an executor-set success flag; it infers
`Success` by scanning the content for the prefixes `Error` and `Failed`.
Running `execute_command` with `echo Error` — a command the policy allows and
whose child process completes normally with output `Error\n` — yields
`Success = false`, while the unknown-tool half of the claim does hold. -/
theorem executeTool_sniffs_success_from_content :
    echoErrorRunner "echo Error" (clampTimeout 30) = .completed "Error\n" ∧
    ExecuteShellCommand echoErrorRunner "echo Error" 30 = ⟨"Error\n", true⟩ ∧
    ExecuteTool echoErrorOracle "execute_command"
      [("command", PValue.str "echo Error")] = ⟨"execute_command", "Error\n", false⟩ ∧
    ExecuteTool stubOracle "unknown_tool" [] =
      ⟨"unknown_tool", "Unknown tool: unknown_tool", false⟩ := by
  refine ⟨rfl, ?_, ?_, by decide⟩ <;> decide

/-- C2: the legacy providers (ai/provider.go) gate execution at confidence
`> 0.5`, so the fallback-produced intent of confidence 0.7 — at or below the
claimed threshold 0.8 — is executed there, while the internal providers'
`> 0.8` gate never executes intents of confidence at most 0.8. -/
theorem legacy_gate_executes_low_confidence :
    ((fallbackPatternMatching "create a file called notes.txt with Hello there").all
      (fun i => decide (i.Confidence ≤ mkRat 8 10)) = true) ∧
    executeIntentsLegacy stubOracle
      (fallbackPatternMatching "create a file called notes.txt with Hello there") =
      [⟨"create_file", "created", true⟩] ∧
    ∀ (oracle : ToolOracle) (intents : List Intent),
      executeIntentsInternal oracle
        (intents.filter (fun i => decide (i.Confidence ≤ mkRat 8 10))) = [] :=
  ⟨by decide, by decide, lowConfidenceNeverExecutesInternal⟩

/-- C3 counterexample: `cat notes.txt` has an allow-listed first token and no
flagged metacharacter, yet the policy denies it — the text `cat ` contains
the deny pattern `at `. -/
theorem commandSafety_cat_denied_cex :
    isCommandSafe "cat notes.txt" = false ∧
    safeCommands.any (fun safe => prefixB "cat".data safe.data) = true ∧
    dangerousChars.any (fun c => infixB c.data (normalize "cat notes.txt")) = false ∧
    infixB "at ".data (normalize "cat notes.txt") = true ∧ "at " ∈ dangerousPatterns := by
  refine ⟨?_, ?_, ?_, ?_, ?_⟩ <;> decide

/-- C3 (amended): any command whose normalized text contains a deny pattern
or a flagged metacharacter is denied, case notwithstanding; and any command
free of both whose first whitespace token is a prefix of an allow-list entry
is accepted. -/
theorem commandSafety_deny_allow :
    (∀ (command p : String), p ∈ dangerousPatterns →
        infixB p.data (normalize command) = true → isCommandSafe command = false) ∧
    (∀ (command c : String), c ∈ dangerousChars →
        infixB c.data (normalize command) = true → isCommandSafe command = false) ∧
    (∀ (command : String) (base : List Char) (rest : List (List Char)),
        dangerousPatterns.any (fun p => infixB p.data (normalize command)) = false →
        dangerousChars.any (fun c => infixB c.data (normalize command)) = false →
        fields (normalize command) = base :: rest →
        safeCommands.any (fun safe => prefixB base safe.data) = true →
        isCommandSafe command = true) :=
  ⟨denyPatternBlocks, denyCharBlocks, allowlistAccepts⟩

/-- Witness for C3: `SUDO rm -rf /` (case-changed) and `a; rm b` are denied
through the theorem, and `pwd -L` is accepted through it. -/
theorem commandSafety_deny_allow_witness :
    ("sudo" ∈ dangerousPatterns) ∧
    infixB "sudo".data (normalize "SUDO rm -rf /") = true ∧
    isCommandSafe "SUDO rm -rf /" = false ∧
    (";" ∈ dangerousChars) ∧
    infixB ";".data (normalize "a; rm b") = true ∧
    isCommandSafe "a; rm b" = false ∧
    isCommandSafe "pwd -L" = true :=
  ⟨by decide, by decide,
   commandSafety_deny_allow.1 "SUDO rm -rf /" "sudo" (by decide) (by decide),
   by decide, by decide,
   commandSafety_deny_allow.2.1 "a; rm b" ";" (by decide) (by decide),
   commandSafety_deny_allow.2.2 "pwd -L" "pwd".data ["-l".data]
     (by decide) (by decide) (by decide) (by decide)⟩

/-- C4: whenever the Safety Policy denies a command, `ExecuteShellCommand`
returns the fixed rejection message and consults no runner — no child
process is spawned. -/
theorem rejected_command_never_spawns (runner : Runner) (command : String)
    (timeout : ℚ) (h : isCommandSafe command = false) :
    ExecuteShellCommand runner command timeout =
      ⟨"Error: Command blocked for security reasons", false⟩ := by
  simp [ExecuteShellCommand, h]

/-- Witness for C4 at Scenario C's input `sudo rm -rf /tmp`. -/
theorem rejected_command_never_spawns_witness :
    isCommandSafe "sudo rm -rf /tmp" = false ∧
    ExecuteShellCommand idleRunner "sudo rm -rf /tmp" 30 =
      ⟨"Error: Command blocked for security reasons", false⟩ :=
  ⟨by decide, rejected_command_never_spawns idleRunner "sudo rm -rf /tmp" 30 (by decide)⟩

/-- C5 counterexample: the fallback does produce the claimed intent for
`create a file called notes.txt with Hello there`, but its confidence 0.7
fails the cited providers' `> 0.8` execution gate, so the pipeline produces
no ToolResult at all from it. -/
theorem fallback_notes_intent_not_executed_cex :
    fallbackPatternMatching "create a file called notes.txt with Hello there" =
      [⟨"create file", "create_file",
        [("filename", PValue.str "notes.txt"), ("content", PValue.str "Hello there")],
        mkRat 7 10⟩] ∧
    executeIntentsInternal stubOracle
      (fallbackPatternMatching "create a file called notes.txt with Hello there") = [] := by
  exact ⟨by decide, by decide⟩

/-- C5 (amended): the fallback turns the input into exactly the claimed
`create_file` intent with confidence 0.7 (hence at least 0.7); the internal
providers' `> 0.8` gate does not execute it, and only the legacy `> 0.5`
gate executes it, yielding a success ToolResult. -/
theorem fallback_notes_intent_amended :
    fallbackPatternMatching "create a file called notes.txt with Hello there" =
      [⟨"create file", "create_file",
        [("filename", PValue.str "notes.txt"), ("content", PValue.str "Hello there")],
        mkRat 7 10⟩] ∧
    mkRat 7 10 ≤ mkRat 7 10 ∧
    executeIntentsInternal stubOracle
      (fallbackPatternMatching "create a file called notes.txt with Hello there") = [] ∧
    executeIntentsLegacy stubOracle
      (fallbackPatternMatching "create a file called notes.txt with Hello there") =
      [⟨"create_file", "created", true⟩] := by
  refine ⟨by decide, by decide, by decide, by decide⟩

/-- Output of 10001 identical characters, one past the truncation cap. -/
def bigOutput : String := ⟨List.replicate 10001 'a'⟩

/-- A runner whose process exits non-zero after emitting `bigOutput`. -/
def failBigRunner : Runner := fun _ _ => .failed "exit status 1" bigOutput

/-- A runner completing normally with a short output. -/
def helloRunner : Runner := fun _ _ => .completed "hello"

/-- C6 counterexample: on the failure path the captured output is embedded in
the failure message without truncation — the result is longer than the cap
plus the marker, so no truncation to the cap took place. -/
theorem shell_failure_output_untruncated_cex :
    (ExecuteShellCommand failBigRunner "ls" 5).output =
      "Command failed: exit status 1\nOutput: " ++ bigOutput ∧
    truncLimit + ("\n... (output truncated)").length <
      (ExecuteShellCommand failBigRunner "ls" 5).output.length := by
  have hsafe : isCommandSafe "ls" = true := by decide
  have hres : ExecuteShellCommand failBigRunner "ls" 5 =
      ⟨"Command failed: exit status 1\nOutput: " ++ bigOutput, true⟩ := rfl
  refine ⟨by rw [hres], ?_⟩
  rw [hres]
  have hbig : bigOutput.length = 10001 := by
    show (List.replicate 10001 'a').length = 10001
    exact List.length_replicate 10001 'a'
  have happ : ("Command failed: exit status 1\nOutput: " ++ bigOutput).length =
      ("Command failed: exit status 1\nOutput: ").length + bigOutput.length :=
    String.length_append _ _
  rw [happ, hbig]
  norm_num [truncLimit, String.length]

/-- C6 (amended): on the normal-completion path of an allowed command the
output is truncated to the 10,000-character cap with the trailing marker
exactly when it exceeds the cap, and returned unmodified otherwise; the
failure path instead embeds the captured output untruncated. -/
theorem shell_output_truncation (runner : Runner) (command : String)
    (timeout : ℚ) (out : String)
    (hsafe : isCommandSafe command = true)
    (hrun : runner command (clampTimeout timeout) = .completed out) :
    ExecuteShellCommand runner command timeout =
      ⟨if truncLimit < out.length then
          ⟨out.data.take truncLimit⟩ ++ "\n... (output truncated)"
        else out, true⟩ := by
  simp only [ExecuteShellCommand, hsafe, Bool.not_true, Bool.false_eq_true, if_false, hrun]
  split <;> rfl

/-- Witness for C6: a short completed output is returned unmodified. -/
theorem shell_output_truncation_witness :
    isCommandSafe "ls" = true ∧
    helloRunner "ls" (clampTimeout 5) = .completed "hello" ∧
    ExecuteShellCommand helloRunner "ls" 5 = ⟨"hello", true⟩ := by
  refine ⟨by decide, rfl, ?_⟩
  have h := shell_output_truncation helloRunner "ls" 5 "hello" (by decide) rfl
  rw [h, if_neg (by decide)]

/-- The inner object of the demonstration intent array. -/
def demoMid : List Char :=
  "\x7b\"action\": \"list files\", \"tool\": \"list_files\", \"parameters\": \x7b\x7d, \"confidence\": 0.9\x7d".data

/-- The demonstration intent array as a reply string. -/
def demoArray : String := ⟨bracketSpan demoMid⟩

/-- C7 counterexample: with a bracket in the surrounding prose (`See [1]: `),
the first-`[`-to-last-`]` span is not the embedded array, unmarshalling
fails, and the text-scan fallback yields a different intent list than the
bare array does. -/
theorem parse_prose_bracket_cex :
    parseIntentResponse ("See [1]: " ++ demoArray) =
      [⟨"detected from text", "list_files", [], mkRat 6 10⟩] ∧
    parseIntentResponse demoArray =
      [⟨"list files", "list_files", [], mkRat 9 10⟩] ∧
    parseIntentResponse ("See [1]: " ++ demoArray) ≠ parseIntentResponse demoArray := by
  refine ⟨by decide, by decide, by decide⟩

/-- C7 (amended): when the prose before the array contains no `[` and the
prose after it contains no `]`, and the bracket-delimited array unmarshals,
the embedded reply parses to exactly the intents of the bare array. -/
theorem parse_embedded_array (A mid B : List Char) (l : List Intent)
    (hA : lbrack ∉ A) (hB : rbrack ∉ B)
    (hparse : jsonUnmarshalIntents (bracketSpan mid) = some l) :
    parseIntentResponse ⟨A ++ (bracketSpan mid ++ B)⟩ = l ∧
    parseIntentResponse ⟨bracketSpan mid⟩ = l := by
  refine ⟨parse_span A mid B l hA hB hparse, ?_⟩
  have h := parse_span [] mid [] l (by simp) (by simp) hparse
  simpa using h

/-- Witness for C7 at a concrete embedded reply. -/
theorem parse_embedded_array_witness :
    lbrack ∉ "I will do this now: ".data ∧
    rbrack ∉ " Done.".data ∧
    jsonUnmarshalIntents (bracketSpan demoMid) =
      some [⟨"list files", "list_files", [], mkRat 9 10⟩] ∧
    parseIntentResponse ⟨"I will do this now: ".data ++ (bracketSpan demoMid ++ " Done.".data)⟩ =
      [⟨"list files", "list_files", [], mkRat 9 10⟩] :=
  ⟨by decide, by decide, by decide,
   (parse_embedded_array "I will do this now: ".data demoMid " Done.".data
      [⟨"list files", "list_files", [], mkRat 9 10⟩]
      (by decide) (by decide) (by decide)).1⟩

/-- C8: `DetectIntent` always returns a list and never an error; when the
model call failed it returns exactly the deterministic keyword-heuristic
fallback for the input. -/
theorem detectIntent_never_errors (modelReply : Except String String)
    (userInput : String) :
    (∃ l, DetectIntent modelReply userInput = .ok l) ∧
    (∀ e, modelReply = .error e →
      DetectIntent modelReply userInput = .ok (fallbackPatternMatching userInput)) := by
  constructor
  · cases modelReply with
    | error e => exact ⟨_, rfl⟩
    | ok response =>
      show ∃ l, (if (parseIntentResponse response).length = 0 then
          Except.ok (fallbackPatternMatching userInput)
        else Except.ok (parseIntentResponse response)) = Except.ok l
      by_cases h : (parseIntentResponse response).length = 0
      · rw [if_pos h]; exact ⟨_, rfl⟩
      · rw [if_neg h]; exact ⟨_, rfl⟩
  · intro e he
    subst he
    rfl

/-- Witness for C8: a failed model call on a known trigger phrase still
yields the heuristic execute-command intent. -/
theorem detectIntent_never_errors_witness :
    DetectIntent (.error "AI error") "run ls command" =
      .ok (fallbackPatternMatching "run ls command") ∧
    fallbackPatternMatching "run ls command" =
      [⟨"execute command", "execute_command",
        [("command", PValue.str "ls command")], mkRat 8 10⟩] :=
  ⟨(detectIntent_never_errors (.error "AI error") "run ls command").2 "AI error" rfl,
   by decide⟩

/-- C9: a command free of deny patterns and flagged metacharacters is
accepted whenever its first whitespace token is a string prefix of any
allow-list entry — the code tests `strings.HasPrefix(safe, baseCommand)`,
so one-letter tokens such as `l` are accepted. -/
theorem allowlist_prefix_accepted (command : String) (base : List Char)
    (rest : List (List Char))
    (hpat : dangerousPatterns.any (fun p => infixB p.data (normalize command)) = false)
    (hchr : dangerousChars.any (fun c => infixB c.data (normalize command)) = false)
    (hfields : fields (normalize command) = base :: rest)
    (hallow : safeCommands.any (fun safe => prefixB base safe.data) = true) :
    isCommandSafe command = true :=
  allowlistAccepts command base rest hpat hchr hfields hallow

/-- Witness for C9 at the one-letter command `l`. -/
theorem allowlist_prefix_accepted_witness :
    (dangerousPatterns.any (fun p => infixB p.data (normalize "l")) = false) ∧
    (dangerousChars.any (fun c => infixB c.data (normalize "l")) = false) ∧
    fields (normalize "l") = ["l".data] ∧
    safeCommands.any (fun safe => prefixB "l".data safe.data) = true ∧
    isCommandSafe "l" = true ∧ isCommandSafe "g" = true ∧ isCommandSafe "p" = true :=
  ⟨by decide, by decide, by decide, by decide,
   allowlist_prefix_accepted "l" "l".data [] (by decide) (by decide) (by decide) (by decide),
   by decide, by decide⟩

/-- C10: the OpenAI and Anthropic providers are deterministic stubs — for
every configuration and every prompt, `GenerateResponse` returns exactly the
fixed echo string with a nil error, independent of any backend, API key or
model selection. -/
theorem stub_providers_fixed_response (p q : OpenAIProvider)
    (a b : AnthropicProvider) (prompt : String) :
    p.GenerateResponse prompt = ("OpenAI response to: " ++ prompt, none) ∧
    p.GenerateResponse prompt = q.GenerateResponse prompt ∧
    a.GenerateResponse prompt = ("Anthropic response to: " ++ prompt, none) ∧
    a.GenerateResponse prompt = b.GenerateResponse prompt :=
  ⟨rfl, rfl, rfl, rfl⟩

end Tala
